import Mathlib

/-!
Verification development for the Google-Business-Profile-to-Snowflake ETL
pipeline (`businessProfile.py`, `main.py`).

The Python source is shallowly embedded as executable Lean definitions:

* `datetime.date` values become `PyDate` with the lexicographic comparison
  Python uses on dates (construction-time range validation of
  `datetime.date` is outside the model; all theorems hold for arbitrary
  field values, hence in particular for the valid ones).
* The nested metrics JSON becomes `MetricsResponse` / `DailyMetricTS` /
  `DatedValue`; the per-date accumulator dict `result_dict` becomes an
  insertion-ordered list of `MetricRow`s keyed by their date field
  (Python dicts preserve insertion order, and the `"%Y-%m-%d"` key of a
  `datetime.date` determines the date, so keying rows by the date value
  is faithful).  A row dict `{'Date': ..., metric: ...}` is modeled with
  the `'Date'` key as the `date` field and the metric columns as `cols`;
  the `'locationId'` key added by the fetch is the `locationId` field.
* HTTP is replaced by explicit server data: paginated endpoints are a
  list of `Page`s served to successive requests, the token-introspection
  endpoint and token mint are a `TokenEnv`.  Python exceptions that the
  source does not catch (`KeyError`, `TypeError`, `IndexError`) are
  `Except.error ()`.
-/

namespace GBP

/-- Decidable equality for `Except`, so concrete runs of the embedded
operations can be checked by `decide`. -/
instance exceptDecEq {ε α : Type} [DecidableEq ε] [DecidableEq α] :
    DecidableEq (Except ε α) := fun x y =>
  match x, y with
  | Except.ok a, Except.ok b =>
    if h : a = b then isTrue (by rw [h])
    else isFalse (fun hh => by cases hh; exact h rfl)
  | Except.error a, Except.error b =>
    if h : a = b then isTrue (by rw [h])
    else isFalse (fun hh => by cases hh; exact h rfl)
  | Except.ok _, Except.error _ => isFalse (fun hh => by cases hh)
  | Except.error _, Except.ok _ => isFalse (fun hh => by cases hh)

/-- Model of `datetime.date(year, month, day)` as constructed in
`fetchMultiDailyMetricsTimeSeries` from the JSON fields. -/
structure PyDate where
  year : Nat
  month : Nat
  day : Nat
deriving DecidableEq, Repr

/-- Python's `<` on `datetime.date`: lexicographic on (year, month, day). -/
def dateLtB (a b : PyDate) : Bool :=
  decide (a.year < b.year ∨ (a.year = b.year ∧
    (a.month < b.month ∨ (a.month = b.month ∧ a.day < b.day))))

/-- Python's `<=` on `datetime.date`: lexicographic on (year, month, day). -/
def dateLeB (a b : PyDate) : Bool :=
  decide (a.year < b.year ∨ (a.year = b.year ∧
    (a.month < b.month ∨ (a.month = b.month ∧ a.day ≤ b.day))))

/-- One step of Python's `min` on dates: keep the accumulator unless the
next element is strictly smaller. -/
def dateMin (a b : PyDate) : PyDate :=
  if dateLeB a b then a else b

/-- Python's `min(dates) if dates else None` over a list of dates. -/
def listMinDate : List PyDate → Option PyDate
  | [] => none
  | d :: ds => some (ds.foldl dateMin d)

/-- One element of `timeSeries.datedValues`: a date plus the optional
`value` field (`dated_value.get('value', 0)` defaults it to 0). -/
structure DatedValue where
  date : PyDate
  value : Option Int
deriving DecidableEq, Repr

/-- One metric block of `dailyMetricTimeSeries`: the `dailyMetric` name and
its `timeSeries.datedValues` list. -/
structure DailyMetricTS where
  dailyMetric : String
  datedValues : List DatedValue
deriving DecidableEq, Repr

/-- One element of the `multiDailyMetricTimeSeries` JSON list: a wrapper
holding a `dailyMetricTimeSeries` list of metric blocks. -/
structure MultiTS where
  dailyMetricTimeSeries : List DailyMetricTS
deriving DecidableEq, Repr

/-- The metrics endpoint's JSON body: the optional
`multiDailyMetricTimeSeries` section (absent for locations with no
performance data) and whatever continuation marker the response may carry
(the source never reads it). -/
structure MetricsResponse where
  multiDailyMetricTimeSeries : Option (List MultiTS)
  nextPageToken : Option String
deriving DecidableEq, Repr

/-- One row of `result_dict` in `fetchMultiDailyMetricsTimeSeries`: the
`'Date'` key (also the dict key), the metric columns in insertion order,
and the `'locationId'` key added after flattening. -/
structure MetricRow where
  date : PyDate
  cols : List (String × Int)
  locationId : Option String
deriving DecidableEq, Repr

/-- Python dict column assignment `row[metric] = value`: overwrite in place
if the key exists, else append (dicts preserve insertion order). -/
def setCol (cols : List (String × Int)) (m : String) (v : Int) :
    List (String × Int) :=
  if cols.any (fun p => p.1 == m) then
    cols.map (fun p => if p.1 == m then (m, v) else p)
  else cols ++ [(m, v)]

/-- The upsert in the flattening loop: create the row for `d` if missing
(`result_dict[formatted_date] = {'Date': formatted_date}`), then set the
metric column (`result_dict[formatted_date][metric] = value`). -/
def upsertRow (rows : List MetricRow) (d : PyDate) (m : String) (v : Int) :
    List MetricRow :=
  if rows.any (fun r => decide (r.date = d)) then
    rows.map (fun r =>
      if r.date = d then ⟨r.date, setCol r.cols m v, r.locationId⟩ else r)
  else rows ++ [⟨d, setCol [] m v, none⟩]

/-- The source's retention test `if min_date and date >= min_date`: a falsy
(`None`) minimum skips the entry, otherwise the entry is kept exactly when
its date is not strictly before the block minimum. -/
def keepEntry (minD : Option PyDate) (dv : DatedValue) : Bool :=
  match minD with
  | none => false
  | some m => dateLeB m dv.date

/-- The per-block minimum `min(dates) if dates else None` computed over the
block's own `datedValues` dates. -/
def blockMinDate (b : DailyMetricTS) : Option PyDate :=
  listMinDate (b.datedValues.map (fun dv => dv.date))

/-- The inner flattening loop over one metric block's `datedValues`,
threading the accumulated rows. -/
def flattenBlock (rows : List MetricRow) (b : DailyMetricTS) :
    List MetricRow :=
  b.datedValues.foldl
    (fun acc dv =>
      if keepEntry (blockMinDate b) dv then
        upsertRow acc dv.date b.dailyMetric (dv.value.getD 0)
      else acc)
    rows

/-- The full flattening over all metric blocks of the response, starting
from the empty `result_dict`. -/
def flattenBlocks (blocks : List DailyMetricTS) : List MetricRow :=
  blocks.foldl flattenBlock []

/-- Dict-key membership test for a metric column of a row. -/
def hasCol (r : MetricRow) (m : String) : Bool :=
  r.cols.any (fun p => p.1 == m)

/-- The dict keys of the accumulated rows, in insertion order. -/
def rowDates (rows : List MetricRow) : List PyDate :=
  rows.map MetricRow.date

/-- A Python value as it flows out of `checkAccessTokenExpiaryTime`: an
`int` (the `expires_in` seconds), the `""` string of the error path, or
`None` from the empty-token path that falls off the end of the function. -/
inductive Py where
  | int (n : Int)
  | str (s : String)
  | noneV
deriving DecidableEq, Repr

/-- The external token services: the introspection endpoint (an `Except`
error is any network/JSON failure of the `expires_in` lookup) and the
token that the OAuth2 token endpoint currently mints (`getNewAccessToken`
returns `""` on failure, which is just a possible value of `newToken`).
The credentials bag only feeds these endpoints, so it is part of the
environment. -/
structure TokenEnv where
  introspect : String → Except Unit Int
  newToken : String

/-- Model of `checkAccessTokenExpiaryTime`: a non-empty token queries the
introspection endpoint and returns `int(expires_in)`; on any exception the
function logs and returns `""`; an empty token only logs a warning and
implicitly returns `None`. -/
def checkAccessTokenExpiaryTime (env : TokenEnv) (access_token : String) :
    Py :=
  if access_token.length ≠ 0 then
    match env.introspect access_token with
    | Except.ok n => Py.int n
    | Except.error _ => Py.str ""
  else
    Py.noneV

/-- Model of `getNewAccessToken`: exchanges the refresh token for whatever
the token endpoint currently returns (`""` when the exchange fails). -/
def getNewAccessToken (env : TokenEnv) : String :=
  env.newToken

/-- Python's `x < 300` on the result of the expiry check: comparing a
`str` or `None` with an `int` raises `TypeError`. -/
def pyLtInt (v : Py) (n : Int) : Except Unit Bool :=
  match v with
  | Py.int m => Except.ok (decide (m < n))
  | Py.str _ => Except.error ()
  | Py.noneV => Except.error ()

/-- The guard that opens every loop iteration of the paginated fetches and
precedes the single metrics request:
`if access_token is None or checkAccessTokenExpiaryTime(access_token) < 300:
access_token = getNewAccessToken(...)`.  Returns the token used for the
request and whether a refresh happened; a `TypeError` from the comparison
propagates. -/
def refreshIfNeeded (env : TokenEnv) (access_token : Option String) :
    Except Unit (String × Bool) :=
  match access_token with
  | none => Except.ok (getNewAccessToken env, true)
  | some t =>
    match pyLtInt (checkAccessTokenExpiaryTime env t) 300 with
    | Except.error e => Except.error e
    | Except.ok true => Except.ok (getNewAccessToken env, true)
    | Except.ok false => Except.ok (t, false)

/-- A token is unusable by the §4.1 policy: missing, empty, or reported by
the introspection endpoint with fewer than 300 seconds left. -/
def staleToken (env : TokenEnv) (tok : Option String) : Prop :=
  tok = none ∨ tok = some "" ∨
    ∃ s n, tok = some s ∧ env.introspect s = Except.ok n ∧ n < 300

/-- A record of the accounts/locations endpoints: a JSON object modeled as
an insertion-ordered field list. -/
abbrev Rec := List (String × String)

/-- One page served by a paginated endpoint: the optional record-list
field (`accounts` / `locations`; `none` means the field is absent from the
response JSON) and the optional `nextPageToken`. -/
structure Page where
  records : Option (List Rec)
  nextPageToken : Option String
deriving DecidableEq, Repr

/-- One iteration of a pagination loop as observed from outside: the token
variable when the iteration began, whether the guard refreshed it, and the
token the page request was issued with. -/
structure Iter where
  tokenBefore : Option String
  refreshed : Bool
  tokenUsed : String
deriving DecidableEq, Repr

/-- The `while True` loop of `listAllAccounts`, walking the served pages.
Each iteration runs the token guard, issues the request, and reads
`response.json()['accounts']` unguarded — an absent `accounts` field is a
`KeyError`.  It continues while `nextPageToken` is present; running out of
served pages while the loop still wants one is a transport failure. -/
def listAllAccountsGo (env : TokenEnv) :
    Option String → List Page → Except Unit (List Rec × String × List Iter)
  | _, [] => Except.error ()
  | tok, p :: rest =>
    match refreshIfNeeded env tok with
    | Except.error e => Except.error e
    | Except.ok (t, r) =>
      match p.records with
      | none => Except.error ()
      | some rs =>
        match p.nextPageToken with
        | none => Except.ok (rs, t, [⟨tok, r, t⟩])
        | some _ =>
          match listAllAccountsGo env (some t) rest with
          | Except.error e => Except.error e
          | Except.ok (recs, tEnd, iters) =>
            Except.ok (rs ++ recs, tEnd, ⟨tok, r, t⟩ :: iters)

/-- Model of `listAllAccounts`: run the pagination loop from the first
page and return the accumulated accounts together with the (possibly
refreshed) token; the `Iter` list records the issued requests. -/
def listAllAccounts (env : TokenEnv) (access_token : Option String)
    (pages : List Page) : Except Unit (List Rec × String × List Iter) :=
  listAllAccountsGo env access_token pages

/-- Python dict assignment `i['accountId'] = value` on a record:
overwrite in place if present, else append. -/
def setKey (r : Rec) (k v : String) : Rec :=
  if r.any (fun p => p.1 == k) then
    r.map (fun p => if p.1 == k then (k, v) else p)
  else r ++ [(k, v)]

/-- The `while True` loop of `getAccountLocations`.  Identical to the
accounts loop except that the record list is read guarded
(`if 'locations' in response.json()`), so an absent field appends
nothing. -/
def getAccountLocationsGo (env : TokenEnv) :
    Option String → List Page → Except Unit (List Rec × String × List Iter)
  | _, [] => Except.error ()
  | tok, p :: rest =>
    match refreshIfNeeded env tok with
    | Except.error e => Except.error e
    | Except.ok (t, r) =>
      let rs := p.records.getD []
      match p.nextPageToken with
      | none => Except.ok (rs, t, [⟨tok, r, t⟩])
      | some _ =>
        match getAccountLocationsGo env (some t) rest with
        | Except.error e => Except.error e
        | Except.ok (recs, tEnd, iters) =>
          Except.ok (rs ++ recs, tEnd, ⟨tok, r, t⟩ :: iters)

/-- Model of `getAccountLocations`: run the pagination loop, then tag
every accumulated location with `i['accountId'] = f'accounts/{accountId}'`.
The `readMask` only decorates the request URL. -/
def getAccountLocations (env : TokenEnv) (access_token : Option String)
    (accountId : String) (readMask : String) (pages : List Page) :
    Except Unit (List Rec × String × List Iter) :=
  match getAccountLocationsGo env access_token pages with
  | Except.error e => Except.error e
  | Except.ok (recs, t, iters) =>
    Except.ok
      (recs.map (fun i => setKey i "accountId" ("accounts/" ++ accountId)),
        t, iters)

/-- The served page list forms exactly the cursor chain the loop walks:
every page except the last carries a continuation cursor and the last one
does not (and there is at least one response). -/
def goodChain : List Page → Bool
  | [] => false
  | [p] => p.nextPageToken.isNone
  | p :: q :: rest => p.nextPageToken.isSome && goodChain (q :: rest)

/-- Python's `str.split(sep)` restricted to a single-character separator,
over the character list, accumulating the current fragment reversed. -/
def pySplitAux (sep : Char) : List Char → List Char → List (List Char)
  | [], cur => [cur.reverse]
  | c :: cs, cur =>
    if c = sep then cur.reverse :: pySplitAux sep cs []
    else pySplitAux sep cs (c :: cur)

/-- Python's `s.split(sep)` for a one-character separator. -/
def pySplit (s : String) (sep : Char) : List String :=
  (pySplitAux sep s.data []).map (fun l => String.mk l)

/-- The date unpacking `year, month, day = dateStr.split('-')` at the top
of the metrics fetch: anything but exactly three fragments raises. -/
def parseDateParts (s : String) : Except Unit (String × String × String) :=
  match pySplit s '-' with
  | [y, m, d] => Except.ok (y, m, d)
  | _ => Except.error ()

/-- Result of the metrics fetch: the flattened tagged rows, the token
handed back to the caller, whether the guard refreshed it, and how many
HTTP requests the call issued. -/
structure FetchResult where
  rows : List MetricRow
  token : String
  refreshed : Bool
  requests : Nat
deriving DecidableEq, Repr

/-- Model of `fetchMultiDailyMetricsTimeSeries`: unpack the date strings,
run the token guard once, issue one request (consuming the first served
response — there is no pagination loop), and flatten the optional
`multiDailyMetricTimeSeries` section, tagging each row with
`locations/{locationId}`.  An absent section returns the empty list. -/
def fetchMultiDailyMetricsTimeSeries (env : TokenEnv)
    (access_token : Option String) (locationId : String)
    (dailyMetrics : List String) (startDate endDate : String)
    (responses : List MetricsResponse) : Except Unit FetchResult :=
  match parseDateParts startDate with
  | Except.error e => Except.error e
  | Except.ok _ =>
    match parseDateParts endDate with
    | Except.error e => Except.error e
    | Except.ok _ =>
      match refreshIfNeeded env access_token with
      | Except.error e => Except.error e
      | Except.ok (t, r) =>
        match responses with
        | [] => Except.error ()
        | resp :: _ =>
          match resp.multiDailyMetricTimeSeries with
          | some mts =>
            let blocks :=
              (mts.map (fun x => x.dailyMetricTimeSeries)).flatten
            let rows := flattenBlocks blocks
            let tagged := rows.map (fun row =>
              (⟨row.date, row.cols,
                some ("locations/" ++ locationId)⟩ : MetricRow))
            Except.ok ⟨tagged, t, r, 1⟩
          | none => Except.ok ⟨[], t, r, 1⟩

/-- A Snowpark dataframe as far as the source observes it: the records it
was built from (`df.count()` is their number). -/
structure SnowparkDF where
  data : List Rec
deriving DecidableEq, Repr

/-- The external warehouse: whether `session.createDataFrame(data)` raises
for a given record list, and whether `write.mode(mode).save_as_table(t)`
raises for a given dataframe/table/mode. -/
structure SinkEnv where
  createOk : List Rec → Bool
  saveOk : SnowparkDF → String → String → Bool

/-- Model of `convertListToSnowparkDataframe`: the construction failure is
caught, logged, and surfaced as `None` instead of an exception. -/
def convertListToSnowparkDataframe (env : SinkEnv) (data : List Rec) :
    Option SnowparkDF :=
  if env.createOk data then some ⟨data⟩ else none

/-- Model of `snowparkDataframeToSnowflakeTable`: write the table and
return `df.count()`; any failure is caught, logged, and surfaced as row
count 0 instead of an exception. -/
def snowparkDataframeToSnowflakeTable (env : SinkEnv) (df : SnowparkDF)
    (tableName : String) (writeMode : String) : Nat :=
  if env.saveOk df tableName writeMode then df.data.length else 0

/-- One table write performed by the orchestrator, as seen by the sink. -/
structure SinkWrite where
  table : String
  mode : String
  rowCount : Nat
deriving DecidableEq, Repr

/-- Configuration constants of `main.py`. -/
def read_mask : String := "title,storeCode,name"

/-- The metric names `main.py` requests. -/
def requiredMetrics : List String :=
  ["WEBSITE_CLICKS", "CALL_CLICKS", "BUSINESS_IMPRESSIONS_DESKTOP_MAPS"]

/-- The configured start date of `main.py`. -/
def start_date : String := "2023-06-01"

/-- The configured end date of `main.py`. -/
def end_date : String := "2023-06-10"

/-- Destination table for accounts. -/
def accountsTable : String := "RISHABH_DB.GOOGLE_BUSINESS_PROFILE.ACCOUNTS"

/-- Destination table for locations. -/
def locationsTable : String :=
  "RISHABH_DB.GOOGLE_BUSINESS_PROFILE.ACCOUNT_LOCATIONS"

/-- Destination table for metrics. -/
def metricsTable : String := "RISHABH_DB.GOOGLE_BUSINESS_PROFILE.METRICS"

/-- Everything external a run of `main.py` interacts with: the token
services and, for each endpoint, the pages/responses the remote API
serves (locations pages per account id, metrics responses per location
id).  The sink itself is taken as healthy here; its failure behavior is
modeled separately by `SinkEnv`. -/
structure World where
  tokenEnv : TokenEnv
  accountPages : List Page
  locationPages : String → List Page
  metricsResponses : String → List MetricsResponse

/-- Python `item['name']` read through `'name' in item`. -/
def lookupKey (r : Rec) (k : String) : Option String :=
  (r.find? (fun p => p.1 == k)).map Prod.snd

/-- Python `s.split('/')[1]`: `none` is the `IndexError` of a name with no
slash. -/
def splitIndex1 (s : String) : Option String :=
  (pySplit s '/').get? 1

/-- The inner loop of `main.py` over one account's locations: extract each
location id from `name`, fetch its metrics, and accumulate the rows
(`if metricsDataFromAPI: metrics_data += ...`, which is a plain append).
The token variable is threaded through exactly as the global is. -/
def runMetricsLoop (w : World) :
    List Rec → Option String → Except Unit (List MetricRow × Option String)
  | [], tok => Except.ok ([], tok)
  | item2 :: rest, tok =>
    match lookupKey item2 "name" with
    | none => runMetricsLoop w rest tok
    | some nm =>
      match splitIndex1 nm with
      | none => Except.error ()
      | some locId =>
        match fetchMultiDailyMetricsTimeSeries w.tokenEnv tok locId
            requiredMetrics start_date end_date
            (w.metricsResponses locId) with
        | Except.error e => Except.error e
        | Except.ok fr =>
          match runMetricsLoop w rest (some fr.token) with
          | Except.error e => Except.error e
          | Except.ok (ms, tokEnd) => Except.ok (fr.rows ++ ms, tokEnd)

/-- The outer loop of `main.py` over the fetched accounts: extract each
account id, fetch its locations, accumulate them, and run the metrics
loop over them.  Returns the combined locations and metrics data and the
final token. -/
def runAccountsLoop (w : World) :
    List Rec → Option String →
      Except Unit (List Rec × List MetricRow × Option String)
  | [], tok => Except.ok ([], [], tok)
  | item :: rest, tok =>
    match lookupKey item "name" with
    | none => runAccountsLoop w rest tok
    | some nm =>
      match splitIndex1 nm with
      | none => Except.error ()
      | some acctId =>
        match getAccountLocations w.tokenEnv tok acctId read_mask
            (w.locationPages acctId) with
        | Except.error e => Except.error e
        | Except.ok (locs, t1, _) =>
          match runMetricsLoop w locs (some t1) with
          | Except.error e => Except.error e
          | Except.ok (ms, tok2) =>
            match runAccountsLoop w rest tok2 with
            | Except.error e => Except.error e
            | Except.ok (ls, ms2, tokEnd) =>
              Except.ok (locs ++ ls, ms ++ ms2, tokEnd)

/-- The body of `main.py`'s `try` block with a healthy sink: fetch all
accounts (starting from the global `accessToken = None`) and write them
immediately; run the account/location/metric loops; then write the
combined metrics and the combined locations, each only when non-empty
(`if metrics_data:` / `if locations_data:`), each as one `overwrite`
write.  The result carries the sink writes in order plus the two combined
sequences; an `Except.error` is any exception reaching the top-level
handler. -/
def mainRun (w : World) :
    Except Unit (List SinkWrite × List Rec × List MetricRow) :=
  match listAllAccounts w.tokenEnv none w.accountPages with
  | Except.error e => Except.error e
  | Except.ok (accounts, tok1, _) =>
    match runAccountsLoop w accounts (some tok1) with
    | Except.error e => Except.error e
    | Except.ok (locations_data, metrics_data, _) =>
      let writes :=
        [(⟨accountsTable, "overwrite", accounts.length⟩ : SinkWrite)]
        ++ (if metrics_data.isEmpty then []
            else [(⟨metricsTable, "overwrite",
                    metrics_data.length⟩ : SinkWrite)])
        ++ (if locations_data.isEmpty then []
            else [(⟨locationsTable, "overwrite",
                    locations_data.length⟩ : SinkWrite)])
      Except.ok (writes, locations_data, metrics_data)

/-- A token environment whose introspection always reports 3600 seconds
of remaining lifetime and whose token endpoint mints `"tokN"`. -/
def envFresh : TokenEnv := ⟨fun _ => Except.ok 3600, "tokN"⟩

/-- A token environment whose introspection always reports 100 seconds of
remaining lifetime (below the 300-second threshold). -/
def envStale : TokenEnv := ⟨fun _ => Except.ok 100, "tokN"⟩

/-- A sink on which both dataframe construction and table writes fail. -/
def sinkFailEnv : SinkEnv := ⟨fun _ => false, fun _ _ _ => false⟩

/-- The date 2023-06-01. -/
def d0601 : PyDate := ⟨2023, 6, 1⟩

/-- The date 2023-06-02. -/
def d0602 : PyDate := ⟨2023, 6, 2⟩

/-- The date 2023-06-03. -/
def d0603 : PyDate := ⟨2023, 6, 3⟩

/-- The spec's example block with dates {2023-06-03, 2023-06-01,
2023-06-02}, values present for all three. -/
def blockABC : DailyMetricTS :=
  ⟨"WEBSITE_CLICKS", [⟨d0603, some 3⟩, ⟨d0601, some 1⟩, ⟨d0602, some 2⟩]⟩

/-- A one-entry metric block for 2023-06-01. -/
def blockA : DailyMetricTS := ⟨"WEBSITE_CLICKS", [⟨d0601, some 5⟩]⟩

/-- A one-entry metric block for 2023-06-02, disjoint from `blockA`. -/
def blockB : DailyMetricTS := ⟨"CALL_CLICKS", [⟨d0602, some 7⟩]⟩

/-- A single accounts page holding one account record. -/
def pagesOne : List Page := [⟨some [[("name", "accounts/a1")]], none⟩]

/-- A two-page cursor chain serving one and then two records. -/
def pagesTwo : List Page :=
  [⟨some [[("name", "accounts/a1")]], some "p2"⟩,
   ⟨some [[("name", "accounts/a2")], [("name", "accounts/a3")]], none⟩]

/-- A two-page chain whose first response omits the record-list field. -/
def pagesLocMixed : List Page :=
  [⟨none, some "p2"⟩, ⟨some [[("name", "locations/l1")]], none⟩]

/-- A metrics response carrying a continuation cursor. -/
def respCursor : MetricsResponse := ⟨some [⟨[blockA]⟩], some "page2"⟩

/-- A metrics response with no continuation cursor. -/
def respPlain : MetricsResponse := ⟨some [⟨[blockB]⟩], none⟩

/-- A world with one account whose locations response omits the list
field, so both combined sequences end up empty. -/
def worldEmptyData : World :=
  ⟨envFresh, pagesOne, fun _ => [⟨none, none⟩], fun _ => []⟩

/-- A world with one account, one location and one metric entry. -/
def worldOneEach : World :=
  ⟨envFresh, pagesOne,
   fun _ => [⟨some [[("name", "locations/l1")]], none⟩],
   fun _ => [⟨some [⟨[blockA]⟩], none⟩]⟩

/-- The sink writes `mainRun worldOneEach` performs. -/
def w1Writes : List SinkWrite :=
  [⟨accountsTable, "overwrite", 1⟩, ⟨metricsTable, "overwrite", 1⟩,
   ⟨locationsTable, "overwrite", 1⟩]

/-- The combined locations sequence of `mainRun worldOneEach`. -/
def w1Locs : List Rec :=
  [[("name", "locations/l1"), ("accountId", "accounts/a1")]]

/-- The combined metrics sequence of `mainRun worldOneEach`. -/
def w1Metrics : List MetricRow :=
  [⟨d0601, [("WEBSITE_CLICKS", 5)], some "locations/l1"⟩]

/-- Reflexivity of the Python date order. -/
theorem dateLeB_refl (a : PyDate) : dateLeB a a = true := by
  simp [dateLeB]

/-- Totality of the Python date order. -/
theorem dateLeB_total (a b : PyDate) :
    dateLeB a b = true ∨ dateLeB b a = true := by
  simp only [dateLeB, decide_eq_true_eq]
  omega

/-- Transitivity of the Python date order. -/
theorem dateLeB_trans (a b c : PyDate) (hab : dateLeB a b = true)
    (hbc : dateLeB b c = true) : dateLeB a c = true := by
  simp only [dateLeB, decide_eq_true_eq] at *
  omega

/-- Python's trichotomy: `not (a <= b)` is exactly `b < a` on dates. -/
theorem dateLeB_false_iff (a b : PyDate) :
    dateLeB a b = false ↔ dateLtB b a = true := by
  simp only [dateLeB, dateLtB, decide_eq_true_eq, decide_eq_false_iff_not]
  omega

/-- The running minimum is below its first argument. -/
theorem dateMin_le_left (a b : PyDate) : dateLeB (dateMin a b) a = true := by
  unfold dateMin
  split
  · exact dateLeB_refl a
  · next h =>
    rcases dateLeB_total a b with h1 | h1
    · exact absurd h1 (by simp [h])
    · exact h1

/-- The running minimum is below its second argument. -/
theorem dateMin_le_right (a b : PyDate) :
    dateLeB (dateMin a b) b = true := by
  unfold dateMin
  split
  · next h => exact h
  · exact dateLeB_refl b

/-- The fold implementing Python's `min` stays below its seed and every
element of the list. -/
theorem foldl_dateMin_le (l : List PyDate) : ∀ (c : PyDate),
    dateLeB (l.foldl dateMin c) c = true ∧
    ∀ d ∈ l, dateLeB (l.foldl dateMin c) d = true := by
  induction l with
  | nil => intro c; exact ⟨dateLeB_refl c, by simp⟩
  | cons x xs ih =>
    intro c
    have h := ih (dateMin c x)
    refine ⟨dateLeB_trans _ _ _ h.1 (dateMin_le_left c x), ?_⟩
    intro d hd
    rcases List.mem_cons.mp hd with rfl | hd
    · exact dateLeB_trans _ _ _ h.1 (dateMin_le_right c d)
    · exact h.2 d hd

/-- Python's `min(dates)` is below every element of the list. -/
theorem listMinDate_le (l : List PyDate) (m : PyDate)
    (h : listMinDate l = some m) : ∀ d ∈ l, dateLeB m d = true := by
  cases l with
  | nil => simp [listMinDate] at h
  | cons x xs =>
    simp only [listMinDate, Option.some.injEq] at h
    subst h
    intro d hd
    rcases List.mem_cons.mp hd with rfl | hd
    · exact (foldl_dateMin_le xs d).1
    · exact (foldl_dateMin_le xs x).2 d hd

/-- Every entry of a block passes the source's retention test against the
block's own minimum date. -/
theorem keepEntry_of_mem (b : DailyMetricTS) (dv : DatedValue)
    (h : dv ∈ b.datedValues) : keepEntry (blockMinDate b) dv = true := by
  have hmem : dv.date ∈ b.datedValues.map (fun x => x.date) :=
    List.mem_map_of_mem _ h
  unfold keepEntry blockMinDate
  cases hm : listMinDate (b.datedValues.map (fun dv => dv.date)) with
  | none =>
    cases hl : b.datedValues.map (fun x => x.date) with
    | nil => rw [hl] at hmem; exact absurd hmem (List.not_mem_nil _)
    | cons y ys => rw [hl] at hm; simp [listMinDate] at hm
  | some m => exact listMinDate_le _ m hm dv.date hmem

/-- A conditional fold whose condition holds on every element is the
plain fold. -/
theorem foldl_if_of_all {α β : Type} (p : β → Bool) (f : α → β → α)
    (l : List β) (h : ∀ x ∈ l, p x = true) : ∀ (a : α),
    l.foldl (fun acc x => if p x then f acc x else acc) a = l.foldl f a := by
  induction l with
  | nil => intro a; rfl
  | cons x xs ih =>
    intro a
    have hx := h x (List.mem_cons_self x xs)
    simp only [List.foldl_cons, hx, if_true]
    exact ih (fun y hy => h y (List.mem_cons_of_mem x hy)) (f a x)

/-- The per-block flattening loop never takes the discard branch: it is
the unconditional fold of upserts. -/
theorem flattenBlock_eq_fold (rows : List MetricRow) (b : DailyMetricTS) :
    flattenBlock rows b =
      b.datedValues.foldl
        (fun acc dv => upsertRow acc dv.date b.dailyMetric (dv.value.getD 0))
        rows := by
  unfold flattenBlock
  exact foldl_if_of_all _ _ _ (fun dv hdv => keepEntry_of_mem b dv hdv) rows

/-- Key membership in a column list, phrased through the key list. -/
theorem any_key_iff_mem (l : List (String × Int)) (m : String) :
    (l.any (fun p => p.1 == m) = true) ↔ m ∈ l.map Prod.fst := by
  simp only [List.any_eq_true, List.mem_map, beq_iff_eq]

/-- The key list after a dict column assignment: unchanged when the key
was present, extended by the key when it was not. -/
theorem setCol_keys (cols : List (String × Int)) (m : String) (v : Int) :
    (setCol cols m v).map Prod.fst =
      if cols.any (fun p => p.1 == m) then cols.map Prod.fst
      else cols.map Prod.fst ++ [m] := by
  unfold setCol
  cases h : cols.any (fun p => p.1 == m) with
  | true =>
    simp only [if_true]
    rw [List.map_map]
    apply List.map_congr_left
    intro p _
    simp only [Function.comp_apply]
    by_cases hp : (p.1 == m) = true
    · rw [if_pos hp]; exact (beq_iff_eq.mp hp).symm
    · rw [if_neg hp]
  | false => simp

/-- Column membership after a dict column assignment. -/
theorem setCol_hasKey (cols : List (String × Int)) (m : String) (v : Int)
    (m' : String) :
    ((setCol cols m v).any (fun p => p.1 == m') = true) ↔
      ((cols.any (fun p => p.1 == m') = true) ∨ m' = m) := by
  cases h : cols.any (fun p => p.1 == m) with
  | true =>
    have hkeys : (setCol cols m v).map Prod.fst = cols.map Prod.fst := by
      rw [setCol_keys, if_pos h]
    rw [any_key_iff_mem, hkeys, ← any_key_iff_mem]
    constructor
    · exact Or.inl
    · rintro (h' | rfl)
      · exact h'
      · exact h
  | false =>
    have hkeys : (setCol cols m v).map Prod.fst =
        cols.map Prod.fst ++ [m] := by
      rw [setCol_keys, if_neg (by simp [h])]
    rw [any_key_iff_mem, hkeys, any_key_iff_mem]
    simp [List.mem_append]

/-- The row keys after the upsert: unchanged when the date was present,
extended by the date when it was not. -/
theorem upsertRow_dates (rows : List MetricRow) (d : PyDate) (m : String)
    (v : Int) :
    rowDates (upsertRow rows d m v) =
      if rows.any (fun r => decide (r.date = d)) then rowDates rows
      else rowDates rows ++ [d] := by
  unfold upsertRow rowDates
  cases h : rows.any (fun r => decide (r.date = d)) with
  | true =>
    simp only [if_true]
    rw [List.map_map]
    apply List.map_congr_left
    intro r _
    simp only [Function.comp_apply]
    by_cases hr : r.date = d
    · rw [if_pos hr]
    · rw [if_neg hr]
  | false => simp

/-- Date membership in the accumulated rows after the upsert. -/
theorem upsertRow_mem_date (rows : List MetricRow) (d d' : PyDate)
    (m : String) (v : Int) :
    d' ∈ rowDates (upsertRow rows d m v) ↔
      (d' ∈ rowDates rows ∨ d' = d) := by
  rw [upsertRow_dates]
  cases h : rows.any (fun r => decide (r.date = d)) with
  | true =>
    simp only [if_true]
    constructor
    · exact Or.inl
    · rintro (h' | rfl)
      · exact h'
      · rcases List.any_eq_true.mp h with ⟨r, hr, hrd⟩
        have hd : r.date = d' := of_decide_eq_true hrd
        exact hd ▸ List.mem_map_of_mem MetricRow.date hr
  | false => simp [rowDates, List.mem_append]

/-- The upsert keeps the row keys duplicate-free. -/
theorem upsertRow_nodup (rows : List MetricRow) (d : PyDate) (m : String)
    (v : Int) (h : (rowDates rows).Nodup) :
    (rowDates (upsertRow rows d m v)).Nodup := by
  rw [upsertRow_dates]
  cases hA : rows.any (fun r => decide (r.date = d)) with
  | true => simpa using h
  | false =>
    simp only [if_neg Bool.false_ne_true]
    rw [List.nodup_append]
    refine ⟨h, List.nodup_singleton d, ?_⟩
    intro x hx hxd
    rcases List.mem_singleton.mp hxd with rfl
    rcases List.mem_map.mp hx with ⟨r, hr, hrd⟩
    have : rows.any (fun r => decide (r.date = x)) = true :=
      List.any_eq_true.mpr ⟨r, hr, decide_eq_true hrd⟩
    rw [hA] at this
    exact absurd this (by simp)

/-- Column membership across the upsert, against an abstract description
`Q` of the columns already accumulated (which may only mention dates of
existing rows). -/
theorem upsertRow_hasCol (rows : List MetricRow) (d : PyDate) (m : String)
    (v : Int) (Q : PyDate → String → Prop)
    (hQ : ∀ r ∈ rows, ∀ M, (hasCol r M = true) ↔ Q r.date M)
    (hdom : ∀ dd M, Q dd M → dd ∈ rowDates rows) :
    ∀ r ∈ upsertRow rows d m v, ∀ M,
      (hasCol r M = true) ↔ (Q r.date M ∨ (r.date = d ∧ M = m)) := by
  intro r hr M
  unfold upsertRow at hr
  by_cases hA : rows.any (fun r => decide (r.date = d)) = true
  · rw [if_pos hA] at hr
    rcases List.mem_map.mp hr with ⟨r0, hr0, rfl⟩
    by_cases hrd : r0.date = d
    · rw [if_pos hrd]
      show ((setCol r0.cols m v).any (fun p => p.1 == M) = true) ↔ _
      rw [setCol_hasKey]
      rw [show (r0.cols.any (fun p => p.1 == M)) = hasCol r0 M from rfl]
      rw [hQ r0 hr0 M]
      constructor
      · rintro (h' | rfl)
        · exact Or.inl h'
        · exact Or.inr ⟨hrd, rfl⟩
      · rintro (h' | ⟨_, rfl⟩)
        · exact Or.inl h'
        · exact Or.inr rfl
    · rw [if_neg hrd]
      rw [hQ r0 hr0 M]
      constructor
      · exact Or.inl
      · rintro (h' | ⟨hd, _⟩)
        · exact h'
        · exact absurd hd hrd
  · rw [if_neg hA] at hr
    rcases List.mem_append.mp hr with hr | hr
    · have hne : r.date ≠ d := by
        intro he
        exact hA (List.any_eq_true.mpr ⟨r, hr, decide_eq_true he⟩)
      rw [hQ r hr M]
      constructor
      · exact Or.inl
      · rintro (h' | ⟨hd, _⟩)
        · exact h'
        · exact absurd hd hne
    · rcases List.mem_singleton.mp hr with rfl
      have hsk := setCol_hasKey [] m v M
      constructor
      · intro hcol
        have hm : M = m := by
          rcases hsk.mp hcol with h' | h'
          · exact absurd h' (by simp)
          · exact h'
        exact Or.inr ⟨rfl, hm⟩
      · rintro (hq | ⟨_, rfl⟩)
        · exfalso
          have hmem := hdom _ _ hq
          rcases List.mem_map.mp hmem with ⟨r0, hr0, hrd⟩
          exact hA (List.any_eq_true.mpr ⟨r0, hr0, decide_eq_true hrd⟩)
        · exact hsk.mpr (Or.inr rfl)

/-- Date membership after folding one block's entries into the rows. -/
theorem foldUpsert_mem_date (m : String) (dvs : List DatedValue) :
    ∀ (rows : List MetricRow) (d : PyDate),
      d ∈ rowDates (dvs.foldl
        (fun acc dv => upsertRow acc dv.date m (dv.value.getD 0)) rows) ↔
      (d ∈ rowDates rows ∨ ∃ dv ∈ dvs, dv.date = d) := by
  induction dvs with
  | nil => intro rows d; simp
  | cons dv dvs ih =>
    intro rows d
    simp only [List.foldl_cons]
    rw [ih, upsertRow_mem_date]
    simp only [List.mem_cons]
    constructor
    · rintro ((h | rfl) | ⟨x, hx, hxd⟩)
      · exact Or.inl h
      · exact Or.inr ⟨dv, Or.inl rfl, rfl⟩
      · exact Or.inr ⟨x, Or.inr hx, hxd⟩
    · rintro (h | ⟨x, (rfl | hx), hxd⟩)
      · exact Or.inl (Or.inl h)
      · exact Or.inl (Or.inr hxd.symm)
      · exact Or.inr ⟨x, hx, hxd⟩

/-- Folding one block's entries keeps the row keys duplicate-free. -/
theorem foldUpsert_nodup (m : String) (dvs : List DatedValue) :
    ∀ (rows : List MetricRow), (rowDates rows).Nodup →
      (rowDates (dvs.foldl
        (fun acc dv => upsertRow acc dv.date m (dv.value.getD 0))
        rows)).Nodup := by
  induction dvs with
  | nil => intro rows h; exact h
  | cons dv dvs ih =>
    intro rows h
    simp only [List.foldl_cons]
    exact ih _ (upsertRow_nodup _ _ _ _ h)

/-- Column membership after folding one block's entries, against an
abstract description of the starting rows. -/
theorem foldUpsert_hasCol (m : String) (dvs : List DatedValue) :
    ∀ (rows : List MetricRow) (Q : PyDate → String → Prop),
      (∀ r ∈ rows, ∀ M, (hasCol r M = true) ↔ Q r.date M) →
      (∀ dd M, Q dd M → dd ∈ rowDates rows) →
      ∀ r ∈ dvs.foldl
        (fun acc dv => upsertRow acc dv.date m (dv.value.getD 0)) rows,
      ∀ M, (hasCol r M = true) ↔
        (Q r.date M ∨ (M = m ∧ ∃ dv ∈ dvs, dv.date = r.date)) := by
  induction dvs with
  | nil =>
    intro rows Q hQ _ r hr M
    rw [hQ r hr M]
    simp
  | cons dv dvs ih =>
    intro rows Q hQ hdom r hr M
    simp only [List.foldl_cons] at hr
    have hQ1 : ∀ r' ∈ upsertRow rows dv.date m (dv.value.getD 0), ∀ M',
        (hasCol r' M' = true) ↔
          (Q r'.date M' ∨ (r'.date = dv.date ∧ M' = m)) :=
      upsertRow_hasCol rows dv.date m (dv.value.getD 0) Q hQ hdom
    have hdom1 : ∀ dd M',
        (Q dd M' ∨ (dd = dv.date ∧ M' = m)) →
          dd ∈ rowDates (upsertRow rows dv.date m (dv.value.getD 0)) := by
      rintro dd M' (hq | ⟨rfl, _⟩)
      · exact (upsertRow_mem_date _ _ _ _ _).mpr (Or.inl (hdom dd M' hq))
      · exact (upsertRow_mem_date _ _ _ _ _).mpr (Or.inr rfl)
    have h := ih _ (fun dd M' => Q dd M' ∨ (dd = dv.date ∧ M' = m))
      hQ1 hdom1 r hr M
    rw [h]
    simp only [List.mem_cons]
    constructor
    · rintro ((hq | ⟨hd, rfl⟩) | ⟨rfl, x, hx, hxd⟩)
      · exact Or.inl hq
      · exact Or.inr ⟨rfl, dv, Or.inl rfl, hd.symm⟩
      · exact Or.inr ⟨rfl, x, Or.inr hx, hxd⟩
    · rintro (hq | ⟨rfl, x, (rfl | hx), hxd⟩)
      · exact Or.inl (Or.inl hq)
      · exact Or.inl (Or.inr ⟨hxd.symm, rfl⟩)
      · exact Or.inr ⟨rfl, x, hx, hxd⟩

/-- Date membership after flattening a list of blocks. -/
theorem foldBlocks_mem_date (blocks : List DailyMetricTS) :
    ∀ (rows : List MetricRow) (d : PyDate),
      d ∈ rowDates (blocks.foldl flattenBlock rows) ↔
      (d ∈ rowDates rows ∨
        ∃ b ∈ blocks, ∃ dv ∈ b.datedValues, dv.date = d) := by
  induction blocks with
  | nil => intro rows d; simp
  | cons b blocks ih =>
    intro rows d
    simp only [List.foldl_cons]
    rw [ih, flattenBlock_eq_fold, foldUpsert_mem_date]
    simp only [List.mem_cons]
    constructor
    · rintro ((h | ⟨x, hx, hxd⟩) | ⟨b', hb', hdv⟩)
      · exact Or.inl h
      · exact Or.inr ⟨b, Or.inl rfl, x, hx, hxd⟩
      · exact Or.inr ⟨b', Or.inr hb', hdv⟩
    · rintro (h | ⟨b', (rfl | hb'), hdv⟩)
      · exact Or.inl (Or.inl h)
      · exact Or.inl (Or.inr hdv)
      · exact Or.inr ⟨b', hb', hdv⟩

/-- Flattening a list of blocks keeps the row keys duplicate-free. -/
theorem foldBlocks_nodup (blocks : List DailyMetricTS) :
    ∀ (rows : List MetricRow), (rowDates rows).Nodup →
      (rowDates (blocks.foldl flattenBlock rows)).Nodup := by
  induction blocks with
  | nil => intro rows h; exact h
  | cons b blocks ih =>
    intro rows h
    simp only [List.foldl_cons]
    rw [flattenBlock_eq_fold]
    exact ih _ (foldUpsert_nodup _ _ _ h)

/-- Column membership after flattening a list of blocks, against an
abstract description of the starting rows. -/
theorem foldBlocks_hasCol (blocks : List DailyMetricTS) :
    ∀ (rows : List MetricRow) (Q : PyDate → String → Prop),
      (∀ r ∈ rows, ∀ M, (hasCol r M = true) ↔ Q r.date M) →
      (∀ dd M, Q dd M → dd ∈ rowDates rows) →
      ∀ r ∈ blocks.foldl flattenBlock rows, ∀ M,
        (hasCol r M = true) ↔
          (Q r.date M ∨ ∃ b ∈ blocks, b.dailyMetric = M ∧
            ∃ dv ∈ b.datedValues, dv.date = r.date) := by
  induction blocks with
  | nil =>
    intro rows Q hQ _ r hr M
    rw [hQ r hr M]
    simp
  | cons b blocks ih =>
    intro rows Q hQ hdom r hr M
    simp only [List.foldl_cons] at hr
    rw [flattenBlock_eq_fold] at hr
    have hQ1 : ∀ r' ∈ b.datedValues.foldl
        (fun acc dv => upsertRow acc dv.date b.dailyMetric (dv.value.getD 0))
        rows, ∀ M',
        (hasCol r' M' = true) ↔
          (Q r'.date M' ∨ (M' = b.dailyMetric ∧
            ∃ dv ∈ b.datedValues, dv.date = r'.date)) :=
      foldUpsert_hasCol b.dailyMetric b.datedValues rows Q hQ hdom
    have hdom1 : ∀ dd M',
        (Q dd M' ∨ (M' = b.dailyMetric ∧
          ∃ dv ∈ b.datedValues, dv.date = dd)) →
        dd ∈ rowDates (b.datedValues.foldl
          (fun acc dv =>
            upsertRow acc dv.date b.dailyMetric (dv.value.getD 0)) rows) := by
      rintro dd M' (hq | ⟨_, x, hx, hxd⟩)
      · exact (foldUpsert_mem_date _ _ _ _).mpr (Or.inl (hdom dd M' hq))
      · exact (foldUpsert_mem_date _ _ _ _).mpr (Or.inr ⟨x, hx, hxd⟩)
    have h := ih _ (fun dd M' => Q dd M' ∨ (M' = b.dailyMetric ∧
        ∃ dv ∈ b.datedValues, dv.date = dd)) hQ1 hdom1 r hr M
    rw [h]
    simp only [List.mem_cons]
    constructor
    · rintro ((hq | ⟨rfl, x, hx, hxd⟩) | ⟨b', hb', hbM, hdv⟩)
      · exact Or.inl hq
      · exact Or.inr ⟨b, Or.inl rfl, rfl, x, hx, hxd⟩
      · exact Or.inr ⟨b', Or.inr hb', hbM, hdv⟩
    · rintro (hq | ⟨b', (rfl | hb'), hbM, hdv⟩)
      · exact Or.inl (Or.inl hq)
      · exact Or.inl (Or.inr ⟨hbM.symm, hdv⟩)
      · exact Or.inr ⟨b', hb', hbM, hdv⟩

/-- C1: in the metrics flattening, a (date, value) entry of a metric
block is discarded if and only if its date is strictly before the minimum
date computed over that same block's own dates — and since the minimum is
taken over the same dates, no entry is ever discarded: every entry passes
the retention test and its date reaches the output rows. -/
theorem metrics_entry_dropped_iff_before_block_min (b : DailyMetricTS)
    (dv : DatedValue) (hdv : dv ∈ b.datedValues) :
    keepEntry (blockMinDate b) dv = true ∧
    ((keepEntry (blockMinDate b) dv = false) ↔
      (∃ m, blockMinDate b = some m ∧ dateLtB dv.date m = true)) ∧
    (∀ rows, dv.date ∈ rowDates (flattenBlock rows b)) := by
  have hkeep := keepEntry_of_mem b dv hdv
  refine ⟨hkeep, ⟨?_, ?_⟩, ?_⟩
  · intro hfalse
    rw [hkeep] at hfalse
    exact absurd hfalse (by simp)
  · rintro ⟨m, hm, hlt⟩
    have hle : dateLeB m dv.date = true := by
      unfold blockMinDate at hm
      exact listMinDate_le _ m hm dv.date (List.mem_map_of_mem _ hdv)
    have hfalse : dateLeB m dv.date = false := (dateLeB_false_iff _ _).mpr hlt
    rw [hle] at hfalse
    exact absurd hfalse (by simp)
  · intro rows
    rw [flattenBlock_eq_fold, foldUpsert_mem_date]
    exact Or.inr ⟨dv, hdv, rfl⟩

/-- Witness for C1 at the spec's example block with dates {2023-06-03,
2023-06-01, 2023-06-02}: each of the three entries is retained. -/
theorem metrics_entry_dropped_iff_before_block_min_witness :
    (keepEntry (blockMinDate blockABC) ⟨d0601, some 1⟩ = true) ∧
    (keepEntry (blockMinDate blockABC) ⟨d0602, some 2⟩ = true) ∧
    (keepEntry (blockMinDate blockABC) ⟨d0603, some 3⟩ = true) :=
  ⟨(metrics_entry_dropped_iff_before_block_min blockABC ⟨d0601, some 1⟩
      (by decide)).1,
   (metrics_entry_dropped_iff_before_block_min blockABC ⟨d0602, some 2⟩
      (by decide)).1,
   (metrics_entry_dropped_iff_before_block_min blockABC ⟨d0603, some 3⟩
      (by decide)).1⟩

/-- C2: for two or more metric blocks, the flattened output has exactly
one row per date in the union of retained dates (all dates, by C1) across
all blocks, and a row carries a column for metric M exactly when some
block named M has an entry for that row's date. -/
theorem flatten_rows_union_and_columns (blocks : List DailyMetricTS)
    (h2 : 2 ≤ blocks.length) :
    ((rowDates (flattenBlocks blocks)).Nodup) ∧
    (∀ d, d ∈ rowDates (flattenBlocks blocks) ↔
      ∃ b ∈ blocks, ∃ dv ∈ b.datedValues, dv.date = d) ∧
    (∀ r ∈ flattenBlocks blocks, ∀ M, (hasCol r M = true) ↔
      ∃ b ∈ blocks, b.dailyMetric = M ∧
        ∃ dv ∈ b.datedValues, dv.date = r.date) := by
  unfold flattenBlocks
  refine ⟨?_, ?_, ?_⟩
  · exact foldBlocks_nodup blocks [] (by simp [rowDates])
  · intro d
    rw [foldBlocks_mem_date]
    simp [rowDates]
  · intro r hr M
    have h := foldBlocks_hasCol blocks [] (fun _ _ => False)
      (by simp) (by simp) r hr M
    simpa using h

/-- Witness for C2 at two blocks covering disjoint dates: the union rows
are duplicate-free and the 2023-06-01 row has a column for a metric
exactly when that metric's block has a 2023-06-01 entry. -/
theorem flatten_rows_union_and_columns_witness :
    (2 ≤ ([blockA, blockB] : List DailyMetricTS).length) ∧
    (rowDates (flattenBlocks [blockA, blockB])).Nodup ∧
    (d0601 ∈ rowDates (flattenBlocks [blockA, blockB]) ↔
      ∃ b ∈ [blockA, blockB], ∃ dv ∈ b.datedValues, dv.date = d0601) :=
  ⟨by decide,
   (flatten_rows_union_and_columns [blockA, blockB] (by decide)).1,
   (flatten_rows_union_and_columns [blockA, blockB] (by decide)).2.1 d0601⟩

/-- C3 counterexample: with the two requested metrics WEBSITE_CLICKS and
CALL_CLICKS reporting disjoint dates, the produced 2023-06-01 row has no
CALL_CLICKS column at all (rather than one defaulted to 0), so a metric
row does not carry one column per requested metric name. -/
theorem metric_row_missing_requested_column :
    flattenBlocks [blockA, blockB] =
      [⟨d0601, [("WEBSITE_CLICKS", 5)], none⟩,
       ⟨d0602, [("CALL_CLICKS", 7)], none⟩] ∧
    ((flattenBlocks [blockA, blockB]).any (fun r =>
      requiredMetrics.any (fun M => !(hasCol r M))) = true) := by
  decide

/-- C3 as amended: every metric row has a column for metric M exactly
when M's block has a retained entry for that row's date (absent metrics
are absent, not 0), and the integer value of an entry whose `value` field
is absent defaults to 0. -/
theorem metric_row_columns_and_value_default :
    (∀ (blocks : List DailyMetricTS), ∀ r ∈ flattenBlocks blocks, ∀ M,
      (hasCol r M = true) ↔
        ∃ b ∈ blocks, b.dailyMetric = M ∧
          ∃ dv ∈ b.datedValues, dv.date = r.date) ∧
    (∀ (d : PyDate) (M : String),
      flattenBlocks [⟨M, [⟨d, none⟩]⟩] = [⟨d, [(M, 0)], none⟩]) := by
  constructor
  · intro blocks r hr M
    have h := foldBlocks_hasCol blocks [] (fun _ _ => False)
      (by simp) (by simp) r hr M
    simpa using h
  · intro d M
    show flattenBlock [] ⟨M, [⟨d, none⟩]⟩ = _
    rw [flattenBlock_eq_fold]
    simp [upsertRow, setCol]

/-- Witness for the amended C3: in the two-block disjoint example the
2023-06-01 row's column membership matches entry presence, and a
valueless entry produces a 0 column. -/
theorem metric_row_columns_and_value_default_witness :
    ((hasCol ⟨d0601, [("WEBSITE_CLICKS", 5)], none⟩ "CALL_CLICKS" = true) ↔
      ∃ b ∈ [blockA, blockB], b.dailyMetric = "CALL_CLICKS" ∧
        ∃ dv ∈ b.datedValues, dv.date = d0601) ∧
    flattenBlocks [⟨"CALL_CLICKS", [⟨d0601, none⟩]⟩] =
      [⟨d0601, [("CALL_CLICKS", 0)], none⟩] :=
  ⟨metric_row_columns_and_value_default.1 [blockA, blockB]
      ⟨d0601, [("WEBSITE_CLICKS", 5)], none⟩ (by decide) "CALL_CLICKS",
   metric_row_columns_and_value_default.2 d0601 "CALL_CLICKS"⟩

/-- A string of length zero is the empty string. -/
theorem string_length_zero {s : String} (h : s.length = 0) : s = "" := by
  cases s with
  | mk data =>
    cases data with
    | nil => rfl
    | cons c cs => simp [String.length] at h

/-- When the guard succeeds, a stale incoming token (missing, empty, or
reported under 300 seconds) forces a refresh, and no refresh means the
request reuses the incoming token. -/
theorem refreshIfNeeded_ok_spec (env : TokenEnv) (tok : Option String)
    (t : String) (r : Bool)
    (h : refreshIfNeeded env tok = Except.ok (t, r)) :
    (staleToken env tok → r = true ∧ t = getNewAccessToken env) ∧
    (r = false → tok = some t) := by
  cases tok with
  | none =>
    simp only [refreshIfNeeded, Except.ok.injEq, Prod.mk.injEq] at h
    obtain ⟨rfl, rfl⟩ := h
    exact ⟨fun _ => ⟨rfl, rfl⟩, fun hr => by cases hr⟩
  | some s =>
    simp only [refreshIfNeeded] at h
    cases hc : pyLtInt (checkAccessTokenExpiaryTime env s) 300 with
    | error e => rw [hc] at h; cases h
    | ok b =>
      rw [hc] at h
      cases b with
      | true =>
        simp only [Except.ok.injEq, Prod.mk.injEq] at h
        obtain ⟨rfl, rfl⟩ := h
        exact ⟨fun _ => ⟨rfl, rfl⟩, fun hr => by cases hr⟩
      | false =>
        simp only [Except.ok.injEq, Prod.mk.injEq] at h
        obtain ⟨rfl, rfl⟩ := h
        refine ⟨?_, fun _ => rfl⟩
        intro hstale
        exfalso
        rcases hstale with h0 | h0 | ⟨s', n, hs', hint, hn⟩
        · cases h0
        · rw [Option.some.injEq] at h0
          subst h0
          rw [checkAccessTokenExpiaryTime] at hc
          simp [pyLtInt] at hc
        · rw [Option.some.injEq] at hs'
          subst hs'
          rw [checkAccessTokenExpiaryTime] at hc
          by_cases hlen : s.length ≠ 0
          · rw [if_pos hlen, hint] at hc
            simp only [pyLtInt, Except.ok.injEq] at hc
            have : ¬ n < 300 := by
              intro hlt
              rw [decide_eq_true hlt] at hc
              exact absurd hc (by simp)
            exact this hn
          · rw [if_neg hlen] at hc
            simp [pyLtInt] at hc

/-- Under an introspection endpoint that always answers, a non-empty (or
missing) token makes the guard succeed with a non-empty token whenever
freshly minted tokens are non-empty. -/
theorem refreshIfNeeded_total (env : TokenEnv) (tok : Option String)
    (henv : ∀ s, ∃ n, env.introspect s = Except.ok n)
    (hnew : env.newToken ≠ "")
    (htok : tok = none ∨ ∃ s, tok = some s ∧ s ≠ "") :
    ∃ t r, refreshIfNeeded env tok = Except.ok (t, r) ∧ t ≠ "" := by
  rcases htok with rfl | ⟨s, rfl, hs⟩
  · exact ⟨env.newToken, true, rfl, hnew⟩
  · obtain ⟨n, hn⟩ := henv s
    have hlen : s.length ≠ 0 := fun h => hs (string_length_zero h)
    by_cases hd : n < 300
    · refine ⟨env.newToken, true, ?_, hnew⟩
      simp [refreshIfNeeded, checkAccessTokenExpiaryTime, if_pos hlen, hn,
        pyLtInt, hd, getNewAccessToken]
    · refine ⟨s, false, ?_, hs⟩
      simp [refreshIfNeeded, checkAccessTokenExpiaryTime, if_pos hlen, hn,
        pyLtInt, hd]

/-- Running the accounts loop over a well-formed cursor chain with an
always-answering introspection endpoint: it succeeds, issues exactly one
request per page, and accumulates exactly the pages' records. -/
theorem listAllAccountsGo_run (env : TokenEnv)
    (henv : ∀ s, ∃ n, env.introspect s = Except.ok n)
    (hnew : env.newToken ≠ "") :
    ∀ (pages : List Page) (tok : Option String),
      goodChain pages = true →
      (tok = none ∨ ∃ s, tok = some s ∧ s ≠ "") →
      (∀ p ∈ pages, p.records.isSome = true) →
      ∃ recs t iters,
        listAllAccountsGo env tok pages = Except.ok (recs, t, iters) ∧
        iters.length = pages.length ∧
        recs.length =
          (pages.map (fun p => (p.records.getD []).length)).sum ∧
        t ≠ "" := by
  intro pages
  induction pages with
  | nil => intro tok hchain _ _; simp [goodChain] at hchain
  | cons p rest ih =>
    intro tok hchain htok hrec
    obtain ⟨t, r, hok, ht⟩ := refreshIfNeeded_total env tok henv hnew htok
    obtain ⟨rs, hrs⟩ :=
      Option.isSome_iff_exists.mp (hrec p (List.mem_cons_self p rest))
    cases rest with
    | nil =>
      have hnone : p.nextPageToken = none := by
        simpa [goodChain, Option.isNone_iff_eq_none] using hchain
      refine ⟨rs, t, [⟨tok, r, t⟩], ?_, rfl, ?_, ht⟩
      · simp [listAllAccountsGo, hok, hrs, hnone]
      · simp [hrs]
    | cons q rest' =>
      have hsome : p.nextPageToken.isSome = true := by
        simp only [goodChain, Bool.and_eq_true] at hchain
        exact hchain.1
      have hchain' : goodChain (q :: rest') = true := by
        simp only [goodChain, Bool.and_eq_true] at hchain
        exact hchain.2
      obtain ⟨pt, hpt⟩ := Option.isSome_iff_exists.mp hsome
      obtain ⟨recs, tEnd, iters, hgo, hlen, hsum, htEnd⟩ :=
        ih (some t) hchain' (Or.inr ⟨t, rfl, ht⟩)
          (fun p' hp' => hrec p' (List.mem_cons_of_mem _ hp'))
      refine ⟨rs ++ recs, tEnd, ⟨tok, r, t⟩ :: iters, ?_, ?_, ?_, htEnd⟩
      · unfold listAllAccountsGo
        rw [hok]
        simp only [hrs, hpt]
        rw [hgo]
      · simp [hlen]
      · simp [hrs, hsum]

/-- Running the locations loop over a well-formed cursor chain with an
always-answering introspection endpoint: it succeeds, issues exactly one
request per page, and accumulates exactly the pages' records, a page with
an absent record-list field contributing zero records. -/
theorem getAccountLocationsGo_run (env : TokenEnv)
    (henv : ∀ s, ∃ n, env.introspect s = Except.ok n)
    (hnew : env.newToken ≠ "") :
    ∀ (pages : List Page) (tok : Option String),
      goodChain pages = true →
      (tok = none ∨ ∃ s, tok = some s ∧ s ≠ "") →
      ∃ recs t iters,
        getAccountLocationsGo env tok pages = Except.ok (recs, t, iters) ∧
        iters.length = pages.length ∧
        recs.length =
          (pages.map (fun p => (p.records.getD []).length)).sum ∧
        t ≠ "" := by
  intro pages
  induction pages with
  | nil => intro tok hchain _; simp [goodChain] at hchain
  | cons p rest ih =>
    intro tok hchain htok
    obtain ⟨t, r, hok, ht⟩ := refreshIfNeeded_total env tok henv hnew htok
    cases rest with
    | nil =>
      have hnone : p.nextPageToken = none := by
        simpa [goodChain, Option.isNone_iff_eq_none] using hchain
      refine ⟨p.records.getD [], t, [⟨tok, r, t⟩], ?_, rfl, ?_, ht⟩
      · simp [getAccountLocationsGo, hok, hnone]
      · simp
    | cons q rest' =>
      have hsome : p.nextPageToken.isSome = true := by
        simp only [goodChain, Bool.and_eq_true] at hchain
        exact hchain.1
      have hchain' : goodChain (q :: rest') = true := by
        simp only [goodChain, Bool.and_eq_true] at hchain
        exact hchain.2
      obtain ⟨pt, hpt⟩ := Option.isSome_iff_exists.mp hsome
      obtain ⟨recs, tEnd, iters, hgo, hlen, hsum, htEnd⟩ :=
        ih (some t) hchain' (Or.inr ⟨t, rfl, ht⟩)
      refine ⟨p.records.getD [] ++ recs, tEnd, ⟨tok, r, t⟩ :: iters,
        ?_, ?_, ?_, htEnd⟩
      · unfold getAccountLocationsGo
        rw [hok]
        simp only [hpt]
        rw [hgo]
      · simp [hlen]
      · simp [hsum]

/-- Every request of a successful accounts loop was issued with the token
produced by the guard evaluated on that iteration's incoming token. -/
theorem listAllAccountsGo_iters (env : TokenEnv) :
    ∀ (pages : List Page) (tok : Option String) (recs : List Rec)
      (t : String) (iters : List Iter),
      listAllAccountsGo env tok pages = Except.ok (recs, t, iters) →
      ∀ it ∈ iters,
        refreshIfNeeded env it.tokenBefore =
          Except.ok (it.tokenUsed, it.refreshed) := by
  intro pages
  induction pages with
  | nil => intro tok recs t iters h; simp [listAllAccountsGo] at h
  | cons p rest ih =>
    intro tok recs t iters h
    unfold listAllAccountsGo at h
    cases hok : refreshIfNeeded env tok with
    | error e =>
      rw [hok] at h
      exact absurd h (by simp)
    | ok tr =>
      obtain ⟨t1, r1⟩ := tr
      simp only [hok] at h
      cases hrec : p.records with
      | none =>
        rw [hrec] at h
        exact absurd h (by simp)
      | some rs =>
        simp only [hrec] at h
        cases hnp : p.nextPageToken with
        | none =>
          simp only [hnp, Except.ok.injEq, Prod.mk.injEq] at h
          obtain ⟨rfl, rfl, rfl⟩ := h
          intro it hit
          rcases List.mem_singleton.mp hit with rfl
          exact hok
        | some pt =>
          simp only [hnp] at h
          cases hgo : listAllAccountsGo env (some t1) rest with
          | error e =>
            rw [hgo] at h
            exact absurd h (by simp)
          | ok out =>
            obtain ⟨recs', tEnd, iters'⟩ := out
            simp only [hgo, Except.ok.injEq, Prod.mk.injEq] at h
            obtain ⟨rfl, rfl, rfl⟩ := h
            intro it hit
            rcases List.mem_cons.mp hit with rfl | hit
            · exact hok
            · exact ih (some t1) recs' tEnd iters' hgo it hit

/-- Every request of a successful locations loop was issued with the
token produced by the guard evaluated on that iteration's incoming
token. -/
theorem getAccountLocationsGo_iters (env : TokenEnv) :
    ∀ (pages : List Page) (tok : Option String) (recs : List Rec)
      (t : String) (iters : List Iter),
      getAccountLocationsGo env tok pages = Except.ok (recs, t, iters) →
      ∀ it ∈ iters,
        refreshIfNeeded env it.tokenBefore =
          Except.ok (it.tokenUsed, it.refreshed) := by
  intro pages
  induction pages with
  | nil => intro tok recs t iters h; simp [getAccountLocationsGo] at h
  | cons p rest ih =>
    intro tok recs t iters h
    unfold getAccountLocationsGo at h
    cases hok : refreshIfNeeded env tok with
    | error e =>
      rw [hok] at h
      exact absurd h (by simp)
    | ok tr =>
      obtain ⟨t1, r1⟩ := tr
      simp only [hok] at h
      cases hnp : p.nextPageToken with
      | none =>
        simp only [hnp, Except.ok.injEq, Prod.mk.injEq] at h
        obtain ⟨rfl, rfl, rfl⟩ := h
        intro it hit
        rcases List.mem_singleton.mp hit with rfl
        exact hok
      | some pt =>
        simp only [hnp] at h
        cases hgo : getAccountLocationsGo env (some t1) rest with
        | error e =>
          rw [hgo] at h
          exact absurd h (by simp)
        | ok out =>
          obtain ⟨recs', tEnd, iters'⟩ := out
          simp only [hgo, Except.ok.injEq, Prod.mk.injEq] at h
          obtain ⟨rfl, rfl, rfl⟩ := h
          intro it hit
          rcases List.mem_cons.mp hit with rfl | hit
          · exact hok
          · exact ih (some t1) recs' tEnd iters' hgo it hit

/-- Any successful metrics fetch issued exactly one request, with the
token produced by one evaluation of the guard on the incoming token. -/
theorem fetchMulti_ok_spec (env : TokenEnv) (tok : Option String)
    (locationId : String) (dms : List String) (sd ed : String)
    (resps : List MetricsResponse) (fr : FetchResult)
    (h : fetchMultiDailyMetricsTimeSeries env tok locationId dms sd ed
      resps = Except.ok fr) :
    fr.requests = 1 ∧
    refreshIfNeeded env tok = Except.ok (fr.token, fr.refreshed) := by
  unfold fetchMultiDailyMetricsTimeSeries at h
  cases h1 : parseDateParts sd with
  | error e => rw [h1] at h; exact absurd h (by simp)
  | ok y1 =>
    simp only [h1] at h
    cases h2 : parseDateParts ed with
    | error e => rw [h2] at h; exact absurd h (by simp)
    | ok y2 =>
      simp only [h2] at h
      cases hok : refreshIfNeeded env tok with
      | error e => rw [hok] at h; exact absurd h (by simp)
      | ok tr =>
        obtain ⟨t, r⟩ := tr
        simp only [hok] at h
        cases resps with
        | nil => exact absurd h (by simp)
        | cons resp rest =>
          cases hm : resp.multiDailyMetricTimeSeries with
          | some mts =>
            simp only [hm, Except.ok.injEq] at h
            subst h
            exact ⟨rfl, rfl⟩
          | none =>
            simp only [hm, Except.ok.injEq] at h
            subst h
            exact ⟨rfl, rfl⟩

/-- A token the guard leaves untouched stays untouched through every
iteration of the accounts loop. -/
theorem listAllAccountsGo_fresh (env : TokenEnv) (s : String)
    (hfresh : refreshIfNeeded env (some s) = Except.ok (s, false)) :
    ∀ (pages : List Page) (recs : List Rec) (t : String)
      (iters : List Iter),
      listAllAccountsGo env (some s) pages = Except.ok (recs, t, iters) →
      t = s ∧ ∀ it ∈ iters, it.refreshed = false := by
  intro pages
  induction pages with
  | nil => intro recs t iters h; simp [listAllAccountsGo] at h
  | cons p rest ih =>
    intro recs t iters h
    unfold listAllAccountsGo at h
    simp only [hfresh] at h
    cases hrec : p.records with
    | none =>
      rw [hrec] at h
      exact absurd h (by simp)
    | some rs =>
      simp only [hrec] at h
      cases hnp : p.nextPageToken with
      | none =>
        simp only [hnp, Except.ok.injEq, Prod.mk.injEq] at h
        obtain ⟨rfl, rfl, rfl⟩ := h
        refine ⟨rfl, ?_⟩
        intro it hit
        rcases List.mem_singleton.mp hit with rfl
        rfl
      | some pt =>
        simp only [hnp] at h
        cases hgo : listAllAccountsGo env (some s) rest with
        | error e =>
          rw [hgo] at h
          exact absurd h (by simp)
        | ok out =>
          obtain ⟨recs', tEnd, iters'⟩ := out
          simp only [hgo, Except.ok.injEq, Prod.mk.injEq] at h
          obtain ⟨rfl, rfl, rfl⟩ := h
          obtain ⟨ht, hits⟩ := ih recs' tEnd iters' hgo
          refine ⟨ht, ?_⟩
          intro it hit
          rcases List.mem_cons.mp hit with rfl | hit
          · rfl
          · exact hits it hit

/-- C4: every page request of the paginated fetches is preceded, in its
own iteration, by an evaluation of the token-usability guard on the
token current at that moment, and whenever that token is missing, empty,
or reported with fewer than 300 seconds of lifetime, the request is made
with a freshly minted token. -/
theorem token_check_before_each_request (env : TokenEnv) :
    (∀ tok pages recs t iters,
      listAllAccounts env tok pages = Except.ok (recs, t, iters) →
      ∀ it ∈ iters,
        (refreshIfNeeded env it.tokenBefore =
          Except.ok (it.tokenUsed, it.refreshed)) ∧
        (staleToken env it.tokenBefore →
          it.refreshed = true ∧ it.tokenUsed = getNewAccessToken env)) ∧
    (∀ tok accountId readMask pages recs t iters,
      getAccountLocations env tok accountId readMask pages =
        Except.ok (recs, t, iters) →
      ∀ it ∈ iters,
        (refreshIfNeeded env it.tokenBefore =
          Except.ok (it.tokenUsed, it.refreshed)) ∧
        (staleToken env it.tokenBefore →
          it.refreshed = true ∧ it.tokenUsed = getNewAccessToken env)) := by
  constructor
  · intro tok pages recs t iters h it hit
    have hlink := listAllAccountsGo_iters env pages tok recs t iters h it hit
    exact ⟨hlink, fun hst => (refreshIfNeeded_ok_spec env _ _ _ hlink).1 hst⟩
  · intro tok accountId readMask pages recs t iters h it hit
    unfold getAccountLocations at h
    cases hgo : getAccountLocationsGo env tok pages with
    | error e => rw [hgo] at h; exact absurd h (by simp)
    | ok out =>
      obtain ⟨recs0, t0, iters0⟩ := out
      simp only [hgo, Except.ok.injEq, Prod.mk.injEq] at h
      obtain ⟨rfl, rfl, rfl⟩ := h
      have hlink :=
        getAccountLocationsGo_iters env pages tok recs0 t0 iters0 hgo it hit
      exact ⟨hlink, fun hst => (refreshIfNeeded_ok_spec env _ _ _ hlink).1 hst⟩

/-- Witness for C4: a token reported with 100 seconds left is stale, and
the single request of a one-page accounts fetch is made with the freshly
minted token after a refresh. -/
theorem token_check_before_each_request_witness :
    (listAllAccounts envStale (some "oldT") pagesOne =
      Except.ok ([[("name", "accounts/a1")]], "tokN",
        [⟨some "oldT", true, "tokN"⟩])) ∧
    ((⟨some "oldT", true, "tokN"⟩ : Iter).refreshed = true ∧
      (⟨some "oldT", true, "tokN"⟩ : Iter).tokenUsed =
        getNewAccessToken envStale) := by
  refine ⟨by decide, ?_⟩
  exact ((token_check_before_each_request envStale).1 (some "oldT") pagesOne
    [[("name", "accounts/a1")]] "tokN" [⟨some "oldT", true, "tokN"⟩]
    (by decide) ⟨some "oldT", true, "tokN"⟩ (by simp)).2
    (Or.inr (Or.inr ⟨"oldT", 100, rfl, rfl, by decide⟩))

/-- C5: over any finite well-formed cursor chain of pages, with a
responsive introspection endpoint, both paginated fetches terminate after
exactly one request per page and accumulate exactly the sum of the
per-page record counts. -/
theorem pagination_exact_requests_and_counts (env : TokenEnv)
    (tok : Option String) (accountId readMask : String)
    (pagesA pagesL : List Page)
    (henv : ∀ s, ∃ n, env.introspect s = Except.ok n)
    (hnew : env.newToken ≠ "")
    (htok : tok = none ∨ ∃ s, tok = some s ∧ s ≠ "")
    (hchainA : goodChain pagesA = true)
    (hchainL : goodChain pagesL = true)
    (hrecA : ∀ p ∈ pagesA, p.records.isSome = true) :
    (∃ recs t iters,
      listAllAccounts env tok pagesA = Except.ok (recs, t, iters) ∧
      iters.length = pagesA.length ∧
      recs.length =
        (pagesA.map (fun p => (p.records.getD []).length)).sum) ∧
    (∃ recs t iters,
      getAccountLocations env tok accountId readMask pagesL =
        Except.ok (recs, t, iters) ∧
      iters.length = pagesL.length ∧
      recs.length =
        (pagesL.map (fun p => (p.records.getD []).length)).sum) := by
  constructor
  · obtain ⟨recs, t, iters, h1, h2, h3, _⟩ :=
      listAllAccountsGo_run env henv hnew pagesA tok hchainA htok hrecA
    exact ⟨recs, t, iters, h1, h2, h3⟩
  · obtain ⟨recs, t, iters, h1, h2, h3, _⟩ :=
      getAccountLocationsGo_run env henv hnew pagesL tok hchainL htok
    refine ⟨recs.map
      (fun i => setKey i "accountId" ("accounts/" ++ accountId)),
      t, iters, ?_, h2, ?_⟩
    · unfold getAccountLocations
      rw [h1]
    · rw [List.length_map]
      exact h3

/-- Witness for C5: a two-page chain serving one and then two records is
fetched with exactly two requests and three accumulated records. -/
theorem pagination_exact_requests_and_counts_witness :
    goodChain pagesTwo = true ∧
    (∃ recs t iters,
      listAllAccounts envFresh (some "tokA") pagesTwo =
        Except.ok (recs, t, iters) ∧
      iters.length = 2 ∧ recs.length = 3) := by
  refine ⟨by decide, ?_⟩
  obtain ⟨recs, t, iters, h1, h2, h3⟩ :=
    (pagination_exact_requests_and_counts envFresh (some "tokA") "a1"
      read_mask pagesTwo pagesTwo (fun s => ⟨3600, rfl⟩) (by decide)
      (Or.inr ⟨"tokA", rfl, by decide⟩) (by decide) (by decide)
      (by decide)).1
  refine ⟨recs, t, iters, h1, ?_, ?_⟩
  · rw [h2]; decide
  · rw [h3]; decide

/-- C6 counterexample: on a page response omitting the record-list field,
the accounts fetch raises (`KeyError`) instead of treating it as an empty
page, while the locations fetch on the same response succeeds with zero
records. -/
theorem accounts_missing_list_field_raises :
    listAllAccounts envFresh (some "tokA") [⟨none, none⟩] =
      Except.error () ∧
    getAccountLocations envFresh (some "tokA") "a1" read_mask
        [⟨none, none⟩] =
      Except.ok ([], "tokA", [⟨some "tokA", false, "tokA"⟩]) := by
  decide

/-- C6 as amended: the locations fetch treats a page response omitting
the `locations` field as an empty page (zero records, normal
continuation/termination), but the accounts fetch raises when its first
response omits the `accounts` field. -/
theorem locations_absent_list_is_empty_page (env : TokenEnv)
    (tok : Option String) (accountId readMask : String)
    (pages : List Page)
    (henv : ∀ s, ∃ n, env.introspect s = Except.ok n)
    (hnew : env.newToken ≠ "")
    (htok : tok = none ∨ ∃ s, tok = some s ∧ s ≠ "")
    (hchain : goodChain pages = true) :
    (∃ recs t iters,
      getAccountLocations env tok accountId readMask pages =
        Except.ok (recs, t, iters) ∧
      recs.length =
        (pages.map (fun p => (p.records.getD []).length)).sum) ∧
    (∀ rest, listAllAccounts env tok ((⟨none, none⟩ : Page) :: rest) =
      Except.error ()) := by
  constructor
  · obtain ⟨recs, t, iters, h1, _, h3, _⟩ :=
      getAccountLocationsGo_run env henv hnew pages tok hchain htok
    refine ⟨recs.map
      (fun i => setKey i "accountId" ("accounts/" ++ accountId)),
      t, iters, ?_, ?_⟩
    · unfold getAccountLocations
      rw [h1]
    · rw [List.length_map]
      exact h3
  · intro rest
    obtain ⟨t, r, hok, _⟩ := refreshIfNeeded_total env tok henv hnew htok
    unfold listAllAccounts listAllAccountsGo
    rw [hok]

/-- Witness for the amended C6: a chain whose first page omits the list
field yields exactly the one record of the second page. -/
theorem locations_absent_list_is_empty_page_witness :
    goodChain pagesLocMixed = true ∧
    (∃ recs t iters,
      getAccountLocations envFresh (some "tokA") "a1" read_mask
        pagesLocMixed = Except.ok (recs, t, iters) ∧
      recs.length = 1) := by
  refine ⟨by decide, ?_⟩
  obtain ⟨recs, t, iters, h1, h3⟩ :=
    (locations_absent_list_is_empty_page envFresh (some "tokA") "a1"
      read_mask pagesLocMixed (fun s => ⟨3600, rfl⟩) (by decide)
      (Or.inr ⟨"tokA", rfl, by decide⟩) (by decide)).1
  refine ⟨recs, t, iters, h1, ?_⟩
  rw [h3]; decide

/-- C7 counterexample: served a response that carries a continuation
cursor, the metrics fetch still issues exactly one request and never
requests the second served page. -/
theorem metrics_fetch_ignores_continuation_cursor :
    respCursor.nextPageToken = some "page2" ∧
    fetchMultiDailyMetricsTimeSeries envFresh (some "tokA") "l1"
        requiredMetrics start_date end_date [respCursor, respPlain] =
      Except.ok ⟨[⟨d0601, [("WEBSITE_CLICKS", 5)], some "locations/l1"⟩],
        "tokA", false, 1⟩ := by
  decide

/-- C7 as amended: unlike the accounts and locations fetches, the metrics
fetch issues exactly one request per call (after the same token guard)
and does not follow continuation cursors. -/
theorem metrics_fetch_is_single_request (env : TokenEnv)
    (tok : Option String) (locationId : String) (dms : List String)
    (sd ed : String) (resps : List MetricsResponse) (fr : FetchResult)
    (h : fetchMultiDailyMetricsTimeSeries env tok locationId dms sd ed
      resps = Except.ok fr) :
    fr.requests = 1 :=
  (fetchMulti_ok_spec env tok locationId dms sd ed resps fr h).1

/-- Witness for the amended C7: a concrete metrics fetch issues exactly
one request. -/
theorem metrics_fetch_is_single_request_witness :
    (fetchMultiDailyMetricsTimeSeries envFresh (some "tokA") "l1"
        requiredMetrics start_date end_date [respPlain] =
      Except.ok ⟨[⟨d0602, [("CALL_CLICKS", 7)], some "locations/l1"⟩],
        "tokA", false, 1⟩) ∧
    (⟨[⟨d0602, [("CALL_CLICKS", 7)], some "locations/l1"⟩],
        "tokA", false, 1⟩ : FetchResult).requests = 1 :=
  ⟨by decide, metrics_fetch_is_single_request envFresh (some "tokA") "l1"
    requiredMetrics start_date end_date [respPlain] _ (by decide)⟩

/-- C10: a non-empty token the introspection endpoint reports with at
least 300 seconds of lifetime is never refreshed by the accounts fetch or
the metrics fetch, and is returned to the caller unchanged. -/
theorem fresh_token_reused_unchanged (env : TokenEnv) (s : String)
    (n : Int) (hintro : env.introspect s = Except.ok n) (hn : 300 ≤ n)
    (hs : s.length ≠ 0) :
    (∀ pages recs t iters,
      listAllAccounts env (some s) pages = Except.ok (recs, t, iters) →
      t = s ∧ ∀ it ∈ iters, it.refreshed = false) ∧
    (∀ locationId dms sd ed resps fr,
      fetchMultiDailyMetricsTimeSeries env (some s) locationId dms sd ed
        resps = Except.ok fr →
      fr.token = s ∧ fr.refreshed = false) := by
  have hfresh : refreshIfNeeded env (some s) = Except.ok (s, false) := by
    simp [refreshIfNeeded, checkAccessTokenExpiaryTime, if_pos hs, hintro,
      pyLtInt, show ¬ (n < 300) from by omega]
  constructor
  · intro pages
    exact listAllAccountsGo_fresh env s hfresh pages
  · intro locationId dms sd ed resps fr h
    have hspec :=
      (fetchMulti_ok_spec env (some s) locationId dms sd ed resps fr h).2
    rw [hfresh] at hspec
    simp only [Except.ok.injEq, Prod.mk.injEq] at hspec
    exact ⟨hspec.1.symm, hspec.2.symm⟩

/-- Witness for C10: with a token reported at 3600 seconds, a one-page
accounts fetch returns the token unchanged and never refreshes. -/
theorem fresh_token_reused_unchanged_witness :
    (listAllAccounts envFresh (some "tokA") pagesOne =
      Except.ok ([[("name", "accounts/a1")]], "tokA",
        [⟨some "tokA", false, "tokA"⟩])) ∧
    "tokA" = "tokA" ∧
    (⟨some "tokA", false, "tokA"⟩ : Iter).refreshed = false := by
  have h : listAllAccounts envFresh (some "tokA") pagesOne =
      Except.ok ([[("name", "accounts/a1")]], "tokA",
        [⟨some "tokA", false, "tokA"⟩]) := by decide
  have h2 := (fresh_token_reused_unchanged envFresh "tokA" 3600 rfl
    (by decide) (by decide)).1 pagesOne _ _ _ h
  exact ⟨h, h2.1, h2.2 _ (by simp)⟩

/-- The sink-write trace of a completed run: one accounts write followed
by the metrics write when the combined metrics are non-empty and the
locations write when the combined locations are non-empty. -/
theorem mainRun_writes_shape (w : World) (writes : List SinkWrite)
    (ldata : List Rec) (mdata : List MetricRow)
    (h : mainRun w = Except.ok (writes, ldata, mdata)) :
    ∃ nAcc, writes =
      (⟨accountsTable, "overwrite", nAcc⟩ : SinkWrite) ::
      ((if mdata.isEmpty then []
        else [(⟨metricsTable, "overwrite", mdata.length⟩ : SinkWrite)]) ++
       (if ldata.isEmpty then []
        else [(⟨locationsTable, "overwrite",
                ldata.length⟩ : SinkWrite)])) := by
  unfold mainRun at h
  cases hacc : listAllAccounts w.tokenEnv none w.accountPages with
  | error e => rw [hacc] at h; exact absurd h (by simp)
  | ok out =>
    obtain ⟨accounts, tok1, iters⟩ := out
    simp only [hacc] at h
    cases hloop : runAccountsLoop w accounts (some tok1) with
    | error e => rw [hloop] at h; exact absurd h (by simp)
    | ok out2 =>
      obtain ⟨ld, md, tokE⟩ := out2
      simp only [hloop, Except.ok.injEq, Prod.mk.injEq] at h
      obtain ⟨rfl, rfl, rfl⟩ := h
      exact ⟨accounts.length, by simp⟩

/-- C8 counterexample: a run that completes without unhandled error but
collects empty combined locations and metrics sequences performs only the
accounts write — the empty sequences are skipped, not written. -/
theorem empty_sequences_skip_sink_writes :
    mainRun worldEmptyData =
      Except.ok ([(⟨accountsTable, "overwrite", 1⟩ : SinkWrite)], [], []) ∧
    accountsTable ≠ locationsTable ∧ accountsTable ≠ metricsTable := by
  decide

/-- C8 as amended: a completed run writes the combined metrics sequence
and the combined locations sequence each as one full-table `overwrite`
write exactly when that sequence is non-empty; an empty combined sequence
produces no write to its table at all. -/
theorem sink_writes_exactly_nonempty_sequences (w : World)
    (writes : List SinkWrite) (ldata : List Rec) (mdata : List MetricRow)
    (h : mainRun w = Except.ok (writes, ldata, mdata)) :
    (mdata ≠ [] →
      (⟨metricsTable, "overwrite", mdata.length⟩ : SinkWrite) ∈ writes) ∧
    (ldata ≠ [] →
      (⟨locationsTable, "overwrite", ldata.length⟩ : SinkWrite) ∈ writes) ∧
    (mdata = [] → ∀ mode n,
      (⟨metricsTable, mode, n⟩ : SinkWrite) ∉ writes) ∧
    (ldata = [] → ∀ mode n,
      (⟨locationsTable, mode, n⟩ : SinkWrite) ∉ writes) := by
  obtain ⟨nAcc, rfl⟩ := mainRun_writes_shape w writes ldata mdata h
  have hMA : metricsTable ≠ accountsTable := by decide
  have hML : metricsTable ≠ locationsTable := by decide
  have hLA : locationsTable ≠ accountsTable := by decide
  have hLM : locationsTable ≠ metricsTable := by decide
  refine ⟨?_, ?_, ?_, ?_⟩
  · intro hm
    have hme : mdata.isEmpty = false := by
      cases mdata with
      | nil => exact absurd rfl hm
      | cons a l => rfl
    rw [hme]
    simp
  · intro hl
    have hle : ldata.isEmpty = false := by
      cases ldata with
      | nil => exact absurd rfl hl
      | cons a l => rfl
    rw [hle]
    cases hme : mdata.isEmpty <;> simp
  · rintro rfl mode n hmem
    simp only [List.isEmpty_nil, if_true, List.nil_append] at hmem
    cases hle : ldata.isEmpty <;> rw [hle] at hmem <;>
      simp [SinkWrite.mk.injEq, hMA, hML] at hmem
  · rintro rfl mode n hmem
    simp only [List.isEmpty_nil, if_true, List.append_nil] at hmem
    cases hme : mdata.isEmpty <;> rw [hme] at hmem <;>
      simp [SinkWrite.mk.injEq, hLA, hLM] at hmem

/-- Witness for the amended C8: a run collecting one location and one
metric row performs all three writes, the metrics one with row count 1. -/
theorem sink_writes_exactly_nonempty_sequences_witness :
    (mainRun worldOneEach = Except.ok (w1Writes, w1Locs, w1Metrics)) ∧
    ((⟨metricsTable, "overwrite", 1⟩ : SinkWrite) ∈ w1Writes) ∧
    ((⟨locationsTable, "overwrite", 1⟩ : SinkWrite) ∈ w1Writes) := by
  have h : mainRun worldOneEach = Except.ok (w1Writes, w1Locs, w1Metrics) :=
    by decide
  have h2 := sink_writes_exactly_nonempty_sequences worldOneEach
    w1Writes w1Locs w1Metrics h
  exact ⟨h, h2.1 (by decide), h2.2.1 (by decide)⟩

/-- C9: a failure constructing the dataframe is caught and surfaced as
`None`, and a failure writing the table is caught and surfaced as row
count 0 — in both cases the operation returns instead of propagating the
exception. -/
theorem sink_failures_absorbed (env : SinkEnv) (data : List Rec)
    (df : SnowparkDF) (tableName writeMode : String) :
    (env.createOk data = false →
      convertListToSnowparkDataframe env data = none) ∧
    (env.saveOk df tableName writeMode = false →
      snowparkDataframeToSnowflakeTable env df tableName writeMode = 0) := by
  constructor
  · intro h
    simp [convertListToSnowparkDataframe, h]
  · intro h
    simp [snowparkDataframeToSnowflakeTable, h]

/-- Witness for C9: on a sink that fails both operations, construction
returns `None` and the write returns row count 0. -/
theorem sink_failures_absorbed_witness :
    (sinkFailEnv.createOk [] = false ∧
      convertListToSnowparkDataframe sinkFailEnv [] = none) ∧
    (sinkFailEnv.saveOk ⟨[]⟩ accountsTable "overwrite" = false ∧
      snowparkDataframeToSnowflakeTable sinkFailEnv ⟨[]⟩ accountsTable
        "overwrite" = 0) :=
  ⟨⟨rfl, (sink_failures_absorbed sinkFailEnv [] ⟨[]⟩ accountsTable
      "overwrite").1 rfl⟩,
   ⟨rfl, (sink_failures_absorbed sinkFailEnv [] ⟨[]⟩ accountsTable
      "overwrite").2 rfl⟩⟩

end GBP
